import Mathlib
/-!
A shallow embedding of the `eth-bridge` NEAR contract
(`src/ethbridge/src/lib.rs`) and proofs about its header-acceptance state
machine.

Modelling conventions:
* `H256`, `H64` hashes and `U256` quantities are modelled as `Nat`; the
  `U256` arithmetic of the `uint` crate panics on overflow, which is
  modelled by checked operations returning `Except`.
* `H128` Merkle roots and `H512` DAG nodes are byte vectors (`List Nat`),
  because `apply_merkle_proof` is byte-exact.
* NEAR `Map`/`Set` collections are association lists with
  first-match lookup semantics.
* A Rust `panic!`/failed `assert!` aborts the whole NEAR transaction, so
  no state is persisted; mutating operations return
  `Except (BridgeErr × EthBridge) EthBridge`, where a returned error
  carries the in-flight state at the moment of the panic (the state the
  operation had written so far, which the runtime then discards).
* `rlp::decode` is an external collaborator; it is passed in as a pure
  `decode : Bytes → Option BlockHeader` function.  It caches `hash` and
  `partial_hash` on every decoded header, so those `Option` fields of the
  Rust struct are modelled as plain fields.
* The external Ethash primitives (`sha256`, `hashimoto_with_hasher`,
  `cross_boundary`, `get_full_size`) are collected in an
  `EthashPrimitives` bundle.  `hashimoto_with_hasher` is deterministic
  given the header hash, nonce and full size: it performs a deterministic
  sequence of 64-byte lookups (`offsets`) and combines the fetched words
  into the `(mix, result)` pair (`finish`).
-/

/-- Byte strings (each entry is one byte). -/
abbrev Bytes := List Nat

/-- `2^256`, the limit of the `U256` type of the `uint` crate. -/
def U256LIMIT : Nat := 2 ^ 256

/-- Error kinds with which a contract call can abort (Rust panics). -/
inductive BridgeErr where
  | decodeError
  | unknownParent
  | invalidHeader
  | merkleRootMismatch
  | witnessIndexOutOfBounds
  | dagNodeIndexOutOfBounds
  | dagMerkleRootOutOfRange
  | u256Overflow
  | u64Underflow
deriving Repr, DecidableEq

/-- `U256` addition; the `uint` crate panics on overflow. -/
def checkedAdd (a b : Nat) : Except BridgeErr Nat :=
  if a + b < U256LIMIT then .ok (a + b) else .error .u256Overflow

/-- `U256` multiplication; the `uint` crate panics on overflow. -/
def checkedMul (a b : Nat) : Except BridgeErr Nat :=
  if a * b < U256LIMIT then .ok (a * b) else .error .u256Overflow

/-- `u64` subtraction; Rust panics on underflow (overflow checks on). -/
def checkedSub (a b : Nat) : Except BridgeErr Nat :=
  if b ≤ a then .ok (a - b) else .error .u64Underflow

/-! ### Association-list stores (NEAR `Map` / `Set` collections) -/
/-- Lookup in an association list: first matching key wins. -/
def lookupA {β : Type} : List (Nat × β) → Nat → Option β
  | [], _ => none
  | (k, v) :: rest, key => if key = k then some v else lookupA rest key

/-- Remove every binding of a key. -/
def removeA {β : Type} (m : List (Nat × β)) (k : Nat) : List (Nat × β) :=
  m.filter (fun p => p.1 != k)

/-- Insert (or overwrite) a binding. -/
def insertA {β : Type} (m : List (Nat × β)) (k : Nat) (v : β) : List (Nat × β) :=
  (k, v) :: removeA m k

/-! ### `DoubleNodeWithMerkleProof` (byte-exact Merkle folding) -/
/-- Write `src` into `data` starting at `start` (Rust `copy_from_slice`
into a subslice, for the in-bounds case). -/
def setSlice (data : Bytes) (start : Nat) (src : Bytes) : Bytes :=
  data.take start ++ src ++ data.drop (start + src.length)

/-- `truncate_to_h128`: low 16 bytes (bytes 16..32) of a 32-byte hash. -/
def truncate_to_h128 (arr : Bytes) : Bytes :=
  (arr.drop 16).take 16

/-- `hash_h128`: SHA-256 of a 64-byte buffer with `l` at bytes 16..32 and
`r` at bytes 48..64, truncated to the low 16 bytes. -/
def hash_h128 (sha : Bytes → Bytes) (l r : Bytes) : Bytes :=
  truncate_to_h128 (sha (setSlice (setSlice (List.replicate 64 0) 16 l) 48 r))

/-- Two 64-byte DAG nodes plus a Merkle inclusion proof. -/
structure DoubleNodeWithMerkleProof where
  dag_nodes : List Bytes
  proof : List Bytes
deriving Repr, DecidableEq

/-- The `for i in 0..proof.len()` loop of `apply_merkle_proof`:
`i` is the bit position of `index` consulted for the ordering.  The
shift `index >> i as u64` is a `u64` shift: for a shift amount
`i ≥ 64` it overflows and the program panics under the
overflow-checks-on build (the semantics adopted throughout this
embedding, cf. `checkedSub`); that panic is modelled as `none`, so the
fold is partial for proof lists longer than 64 siblings. -/
def merkleFold (sha : Bytes → Bytes) (index : Nat) :
    Bytes → List Bytes → Nat → Option Bytes
  | leaf, [], _ => some leaf
  | leaf, p :: ps, i =>
    if i < 64 then
      let leaf' := if (index >>> i) % 2 = 0 then hash_h128 sha leaf p
                   else hash_h128 sha p leaf
      merkleFold sha index leaf' ps (i + 1)
    else none

/-- `DoubleNodeWithMerkleProof::apply_merkle_proof`.  The Rust code
indexes `dag_nodes[0]` and `dag_nodes[1]`, which panics when the list is
shorter than two entries, and its fold panics on a `u64` shift overflow
for proofs longer than 64 siblings; both partialities are modelled with
`Option`. -/
def apply_merkle_proof (sha : Bytes → Bytes)
    (w : DoubleNodeWithMerkleProof) (index : Nat) : Option Bytes :=
  match w.dag_nodes.get? 0, w.dag_nodes.get? 1 with
  | some n0, some n1 =>
    let data := setSlice (setSlice (List.replicate 128 0) 0 n0) 64 n1
    let leaf := truncate_to_h128 (sha data)
    merkleFold sha index leaf w.proof 0
  | _, _ => none

/-! ### Headers and bridge state -/
/-- Decoded Ethereum block header (the fields the contract reads).
`hash` and `partial_hash` are cached by `rlp::decode`, so the `Option`
wrappers of the Rust struct are modelled as plain fields. -/
structure BlockHeader where
  parent_hash : Nat
  number : Nat
  difficulty : Nat
  gas_used : Nat
  gas_limit : Nat
  timestamp : Nat
  nonce : Nat
  hash : Nat
  partial_hash : Nat
deriving Repr, DecidableEq

/-- Per-header metadata (`HeaderInfo`). -/
structure HeaderInfo where
  total_difficulty : Nat
  parent_hash : Nat
  number : Nat
deriving Repr, DecidableEq

/-- `HeaderInfo::default()`: all fields zero. -/
def defaultInfo : HeaderInfo := ⟨0, 0, 0⟩

/-- The persisted contract state (`struct EthBridge`). -/
structure EthBridge where
  dags_start_epoch : Nat
  dags_merkle_roots : List Bytes
  best_header_hash : Nat
  canonical_header_hashes : List (Nat × Nat)
  headers : List (Nat × BlockHeader)
  infos : List (Nat × HeaderInfo)
  recent_header_hashes : List (Nat × List Nat)
deriving Repr, DecidableEq

/-- `NUMBER_OF_BLOCKS_FINALITY`. -/
def NUMBER_OF_BLOCKS_FINALITY : Nat := 30

/-- `EthBridge::init`. -/
def EthBridge.init (dags_start_epoch : Nat) (dags_merkle_roots : List Bytes) :
    EthBridge :=
  { dags_start_epoch := dags_start_epoch
    dags_merkle_roots := dags_merkle_roots
    best_header_hash := 0
    canonical_header_hashes := []
    headers := []
    infos := []
    recent_header_hashes := [] }

/-- `EthBridge::initialized`. -/
def EthBridge.initialized (s : EthBridge) : Bool :=
  s.dags_merkle_roots.length > 0

/-- `EthBridge::last_block_number`. -/
def last_block_number (s : EthBridge) : Nat :=
  ((lookupA s.infos s.best_header_hash).getD defaultInfo).number

/-- `EthBridge::dag_merkle_root`: `dags_merkle_roots[epoch - dags_start_epoch]`.
The `u64` subtraction underflows when `epoch < dags_start_epoch`, and the
`Vec` indexing panics when the index is out of range. -/
def dag_merkle_root (s : EthBridge) (epoch : Nat) : Except BridgeErr Bytes :=
  if epoch < s.dags_start_epoch then .error .u64Underflow
  else
    match s.dags_merkle_roots.get? (epoch - s.dags_start_epoch) with
    | some r => .ok r
    | none => .error .dagMerkleRootOutOfRange

/-- `EthBridge::block_hash`. -/
def block_hash (s : EthBridge) (index : Nat) : Option Nat :=
  lookupA s.canonical_header_hashes index

/-! ### PoW verifier (`hashimoto_merkle` and `verify_header`) -/
/-- The external Ethash machinery, treated as pure building blocks.
`hashimoto_with_hasher` performs a deterministic sequence of 64-byte DAG
lookups; `offsets header_hash nonce full_size` is that sequence of lookup
offsets, and `finish header_hash nonce words` folds the fetched (already
byte-reversed) words into the `(mix, result)` pair.  `keccak256` and
`keccak512` are internal to `finish`. -/
structure EthashPrimitives where
  sha256 : Bytes → Bytes
  offsets : Nat → Nat → Nat → List Nat
  finish : Nat → Nat → List Bytes → Nat × Nat
  cross_boundary : Nat → Nat
  get_full_size : Nat → Nat

/-- The `assert_eq!(merkle_root, node.apply_merkle_proof(offset / 2))`
check performed on the first word of each witness pair (`idx` even).  A
`none` from `apply_merkle_proof` is a panic inside the fold (dag-node
indexing or `u64` shift overflow). -/
def pairRootCheck (sha : Bytes → Bytes) (root : Bytes)
    (node : DoubleNodeWithMerkleProof) (idx offset : Nat) :
    Except BridgeErr Unit :=
  if idx % 2 = 0 then
    match apply_merkle_proof sha node (offset / 2) with
    | none => .error .dagNodeIndexOutOfBounds
    | some r => if root = r then .ok () else .error .merkleRootMismatch
  else .ok ()

/-- The lookup closure passed to `ethash::hashimoto_with_hasher`, run over
the deterministic offset sequence; `idx` is the `RefCell` counter.  Each
call reads `nodes[idx / 2]` (panics when out of bounds), checks the Merkle
proof of the pair against `root` on even `idx`, and returns
`dag_nodes[idx % 2]` with each 32-byte half reversed. -/
def lookupWords (P : EthashPrimitives) (root : Bytes)
    (nodes : List DoubleNodeWithMerkleProof) :
    List Nat → Nat → Except BridgeErr (List Bytes)
  | [], _ => .ok []
  | offset :: rest, idx =>
    match nodes.get? (idx / 2) with
    | none => .error .witnessIndexOutOfBounds
    | some node =>
      match pairRootCheck P.sha256 root node idx offset with
      | .error e => .error e
      | .ok _ =>
        match node.dag_nodes.get? (idx % 2) with
        | none => .error .dagNodeIndexOutOfBounds
        | some w =>
          -- Reverse each 32 bytes for ETHASH compatibility
          let word := (w.take 32).reverse ++ (w.drop 32).reverse
          match lookupWords P root nodes rest (idx + 1) with
          | .error e => .error e
          | .ok ws => .ok (word :: ws)

/-- `EthBridge::hashimoto_merkle`. -/
def hashimoto_merkle (P : EthashPrimitives) (s : EthBridge)
    (header_hash nonce block_number : Nat)
    (nodes : List DoubleNodeWithMerkleProof) : Except BridgeErr (Nat × Nat) :=
  match dag_merkle_root s (block_number / 30000) with
  | .error e => .error e
  | .ok merkle_root =>
    match lookupWords P merkle_root nodes
        (P.offsets header_hash nonce (P.get_full_size (block_number / 30000))) 0 with
    | .error e => .error e
    | .ok words => .ok (P.finish header_hash nonce words)

/-- The two difficulty conjuncts of `verify_header`
(`difficulty < difficulty * 101 / 100 && difficulty > difficulty * 99 / 100`),
with the same `U256` checked multiplications (panic on overflow) and
short-circuit order as the Rust `&&` chain. -/
def difficultyConjuncts (d : Nat) : Except BridgeErr Bool :=
  match checkedMul d 101 with
  | .error e => .error e
  | .ok m101 =>
    if d < m101 / 100 then
      match checkedMul d 99 with
      | .error e => .error e
      | .ok m99 => if m99 / 100 < d then .ok true else .ok false
    else .ok false

/-- `EthBridge::verify_header`.  The Rust `&&` chain short-circuits, so
each `U256` multiplication (which panics on overflow) only runs when the
earlier conjuncts held; the nested matches mirror that order.  The second
and third conjuncts are `difficultyConjuncts`. -/
def verify_header (P : EthashPrimitives) (s : EthBridge)
    (header prev : BlockHeader)
    (dag_nodes : List DoubleNodeWithMerkleProof) : Except BridgeErr Bool :=
  match hashimoto_merkle P s header.partial_hash header.nonce
      header.number dag_nodes with
  | .error e => .error e
  | .ok pair =>
    if ¬ (pair.2 < P.cross_boundary header.difficulty) then .ok false else
    match difficultyConjuncts header.difficulty with
    | .error e => .error e
    | .ok false => .ok false
    | .ok true =>
      if ¬ (header.gas_used ≤ header.gas_limit) then .ok false else
      match checkedMul prev.gas_limit 1025 with
      | .error e => .error e
      | .ok g1025 =>
        if ¬ (header.gas_limit < g1025 / 1024) then .ok false else
        match checkedMul prev.gas_limit 1023 with
        | .error e => .error e
        | .ok g1023 =>
          if ¬ (g1023 / 1024 < header.gas_limit) then .ok false else
          if ¬ (5000 ≤ header.gas_limit) then .ok false else
          if ¬ (prev.timestamp < header.timestamp) then .ok false else
          if ¬ (header.number = prev.number + 1) then .ok false else
          if ¬ (header.parent_hash = prev.hash) then .ok false else
          .ok true

/-! ### Acceptance state machine -/
/-- `EthBridge::add_recent_header_hash`: insert `hash` into the per-height
set (NEAR `Set`: no duplicates) and store it back. -/
def add_recent_header_hash (s : EthBridge) (number hash : Nat) : EthBridge :=
  let hashes := (lookupA s.recent_header_hashes number).getD []
  let hashes2 := if hash ∈ hashes then hashes else hash :: hashes
  { s with recent_header_hashes := insertA s.recent_header_hashes number hashes2 }

/-- Remove a list of heights from the canonical index (the
`for number in info.number+1..=best_info.number` cleanup loop). -/
def removeNumbers (canon : List (Nat × Nat)) : List Nat → List (Nat × Nat)
  | [] => canon
  | n :: rest => removeNumbers (removeA canon n) rest

/-- The ancestor walk-back loop of `maybe_store_header`: insert
`current_hash` at `number`, stop when `number == 0`, when the previous
canonical value already was `current_hash`, or when `infos` has no entry
for `current_hash`; otherwise continue one height down from the parent. -/
def walkBack (infos : List (Nat × HeaderInfo)) :
    Nat → Nat → List (Nat × Nat) → List (Nat × Nat)
  | 0, current_hash, canon => insertA canon 0 current_hash
  | n + 1, current_hash, canon =>
    let prev_value := lookupA canon (n + 1)
    let canon2 := insertA canon (n + 1) current_hash
    if prev_value = some current_hash then canon2
    else
      match lookupA infos current_hash with
      | none => canon2
      | some info => walkBack infos n info.parent_hash canon2

/-- One height of the GC loop: drop every hash recorded at `number` from
`infos` and `headers`, then drop the per-height set itself. -/
def gcNumber (s : EthBridge) (number : Nat) : EthBridge :=
  match lookupA s.recent_header_hashes number with
  | none => s
  | some hashes =>
    { s with
      infos := hashes.foldl removeA s.infos
      headers := hashes.foldl removeA s.headers
      recent_header_hashes := removeA s.recent_header_hashes number }

/-- `EthBridge::maybe_gc`: when the tip advanced and
`last_best_number ≥ NUMBER_OF_BLOCKS_FINALITY`, GC every height in
`[last_best_number − 30, new_best_number − 30)`. -/
def maybe_gc (s : EthBridge) (last_best_number new_best_number : Nat) : EthBridge :=
  if new_best_number > last_best_number ∧
      last_best_number ≥ NUMBER_OF_BLOCKS_FINALITY then
    (List.range' (last_best_number - NUMBER_OF_BLOCKS_FINALITY)
      ((new_best_number - NUMBER_OF_BLOCKS_FINALITY) -
        (last_best_number - NUMBER_OF_BLOCKS_FINALITY))).foldl gcNumber s
  else s

/-- `EthBridge::maybe_store_header`.  A returned error carries the
in-flight state at the moment of the Rust panic. -/
def maybe_store_header (s : EthBridge) (header : BlockHeader) :
    Except (BridgeErr × EthBridge) EthBridge :=
  let best_info := (lookupA s.infos s.best_header_hash).getD defaultInfo
  if best_info.number > header.number + NUMBER_OF_BLOCKS_FINALITY then
    -- It's too late to add this block header.
    .ok s
  else
    let header_hash := header.hash
    let s1 := { s with headers := insertA s.headers header_hash header }
    let parent_info := (lookupA s1.infos header.parent_hash).getD defaultInfo
    match checkedAdd parent_info.total_difficulty header.difficulty with
    | .error e => .error (e, s1)
    | .ok td =>
      let info : HeaderInfo :=
        { total_difficulty := td
          parent_hash := header.parent_hash
          number := header.number }
      let s2 := { s1 with infos := insertA s1.infos header_hash info }
      let s3 := add_recent_header_hash s2 info.number header_hash
      if td > best_info.total_difficulty ∨
          (td = best_info.total_difficulty ∧ header.difficulty % 2 = 0) then
        -- The new header is the tip of the new canonical chain.
        let s4 :=
          if best_info.number > info.number then
            { s3 with canonical_header_hashes :=
                (removeNumbers s3.canonical_header_hashes
                  (List.range' (info.number + 1) (best_info.number - info.number))) }
          else s3
        let s5 := { s4 with
          best_header_hash := header_hash
          canonical_header_hashes :=
            insertA s4.canonical_header_hashes info.number header_hash }
        match checkedSub header.number 1 with
        | .error e => .error (e, s5)
        | .ok n0 =>
          let s6 := { s5 with canonical_header_hashes :=
              (walkBack s5.infos n0 info.parent_hash s5.canonical_header_hashes) }
          .ok (maybe_gc s6 best_info.number info.number)
      else .ok s3

/-- `EthBridge::add_block_header`.  A returned error carries the state at
the moment of the Rust panic; every panic before `maybe_store_header`
carries the entry state unchanged. -/
def add_block_header (P : EthashPrimitives)
    (decode : Bytes → Option BlockHeader) (s : EthBridge)
    (block_header : Bytes) (dag_nodes : List DoubleNodeWithMerkleProof) :
    Except (BridgeErr × EthBridge) EthBridge :=
  match decode block_header with
  | none => .error (.decodeError, s)
  | some header =>
    if s.best_header_hash = 0 then
      -- Submit very first block, can trust relayer
      maybe_store_header s header
    else
      -- `let header_hash = header.hash.unwrap()` (the decoder cached it)
      if (lookupA s.infos header.hash).isSome then
        -- The header is already known
        .ok s
      else
        match lookupA s.headers header.parent_hash with
        | none => .error (.unknownParent, s)
        | some prev =>
          match verify_header P s header prev dag_nodes with
          | .error e => .error (e, s)
          | .ok false => .error (.invalidHeader, s)
          | .ok true => maybe_store_header s header

/-! ### Concrete fixtures (used by witnesses and counterexamples) -/
/-- A concrete stand-in for the external SHA-256 primitive. -/
def zeroSha : Bytes → Bytes := fun _ => List.replicate 32 0

/-- Concrete external Ethash machinery: no DAG lookups, result `0`,
boundary `1` (so the PoW threshold check passes). -/
def trivialEthash : EthashPrimitives :=
  { sha256 := zeroSha
    offsets := fun _ _ _ => []
    finish := fun _ _ _ => (0, 0)
    cross_boundary := fun _ => 1
    get_full_size := fun _ => 0 }

/-- Concrete chain of headers: the header at height `n` has hash
`1000 + n` and points at the header at height `n - 1`. -/
def mkHeader (n : Nat) : BlockHeader :=
  { parent_hash := if n = 1 then 0 else 1000 + (n - 1)
    number := n
    difficulty := 100
    gas_used := 0
    gas_limit := 10000
    timestamp := n
    nonce := 0
    hash := 1000 + n
    partial_hash := 0 }

/-- Concrete decoder: the byte string `[n]` decodes to `mkHeader n`. -/
def chainDecode : Bytes → Option BlockHeader
  | [n] => some (mkHeader n)
  | _ => none

/-- Submitting heights `1, 2, …, 31` in order (one bootstrap header and
thirty verified children). -/
def c3Run : Except (BridgeErr × EthBridge) EthBridge :=
  (List.range' 1 31).foldlM
    (fun s n => add_block_header trivialEthash chainDecode s [n] [])
    (EthBridge.init 0 [List.replicate 16 0])

/-- The state reached by `c3Run`. -/
def c3Final : EthBridge :=
  match c3Run with
  | .ok s => s
  | .error e => e.2

/-- A small steady state: the chain has been bootstrapped with
`mkHeader 1`, which is the canonical tip. -/
def c7State : EthBridge :=
  { dags_start_epoch := 0
    dags_merkle_roots := [List.replicate 16 0]
    best_header_hash := 1001
    canonical_header_hashes := [(1, 1001)]
    headers := [(1001, mkHeader 1)]
    infos := [(1001, ⟨100, 0, 1⟩)]
    recent_header_hashes := [(1, [1001])] }

/-! ### Shared helper definitions and lemmas -/
/-- `best_info`: `infos[best_header_hash]`, defaulted to zero. -/
def bestInfo (s : EthBridge) : HeaderInfo :=
  (lookupA s.infos s.best_header_hash).getD defaultInfo

/-- The total difficulty computed for a new header: the parent's info
(zero when absent) plus the header's own difficulty. -/
def newTotalDifficulty (s : EthBridge) (header : BlockHeader) : Nat :=
  ((lookupA s.infos header.parent_hash).getD defaultInfo).total_difficulty +
    header.difficulty

/-- The error kind with which a mutating call aborted, if it did. -/
def panicKind {α : Type} : Except (BridgeErr × EthBridge) α → Option BridgeErr
  | .error (e, _) => some e
  | .ok _ => none

/-- A state whose best header sits at height 100. -/
def c3GuardState : EthBridge :=
  { c7State with infos := [(1001, ⟨100, 0, 100⟩)] }

/-! ### Branch-wise evaluation of `maybe_store_header` -/
/-- The state after the three stores of `maybe_store_header`
(`headers` insert, `infos` insert, recent-set insert). -/
def storedState (s : EthBridge) (header : BlockHeader) : EthBridge :=
  add_recent_header_hash
    { s with
        headers := insertA s.headers header.hash header
        infos := insertA s.infos header.hash
          ⟨((lookupA s.infos header.parent_hash).getD defaultInfo).total_difficulty +
            header.difficulty, header.parent_hash, header.number⟩ }
    header.number header.hash

/-- The state after a winning store, before GC: tip replaced, canonical
index rewritten by the walk-back starting from `canonBase` with the new
tip inserted. -/
def winState (s : EthBridge) (header : BlockHeader)
    (canonBase : List (Nat × Nat)) : EthBridge :=
  { storedState s header with
      best_header_hash := header.hash
      canonical_header_hashes :=
        (walkBack (storedState s header).infos (header.number - 1)
          header.parent_hash (insertA canonBase header.number header.hash)) }

/-- External Ethash machinery performing exactly one 64-byte DAG lookup. -/
def c9Ethash : EthashPrimitives :=
  { sha256 := zeroSha
    offsets := fun _ _ _ => [0]
    finish := fun _ _ _ => (0, 0)
    cross_boundary := fun _ => 1
    get_full_size := fun _ => 0 }

/-- A witness of two all-zero 64-byte DAG nodes with an empty proof; with
`zeroSha` its Merkle fold is the all-zero 16-byte root. -/
def c9Witness : DoubleNodeWithMerkleProof :=
  ⟨[List.replicate 64 0, List.replicate 64 0], []⟩

/-! ### Claim C6 — bit-exactness of the Merkle fold -/
/-- Spec §4.1 step 2, stated from the spec's words: the paired hash of a
left and a right 16-byte value is SHA-256 of the 64-byte buffer whose
bytes 16..32 are the left input and bytes 48..64 the right input (all
other bytes zero), truncated to the low 16 bytes. -/
def spec_pair_hash (sha : Bytes → Bytes) (l r : Bytes) : Bytes :=
  truncate_to_h128 (sha (List.replicate 16 0 ++ l ++ (List.replicate 16 0 ++ r)))

/-- Spec §4.1 step 2, the fold: current leaf goes left when bit `i` of
the index is 0, right otherwise. -/
def spec_merkle_fold (sha : Bytes → Bytes) (index : Nat) :
    Bytes → List Bytes → Nat → Bytes
  | leaf, [], _ => leaf
  | leaf, sib :: rest, i =>
    let next := if index.testBit i = false then spec_pair_hash sha leaf sib
                else spec_pair_hash sha sib leaf
    spec_merkle_fold sha index next rest (i + 1)

/-- Spec §4.1, stated from the spec's words: start from the low 16 bytes
of SHA-256 over the 128-byte concatenation of the two DAG nodes, then
fold the proof siblings. -/
def apply_merkle_proof_spec (sha : Bytes → Bytes) (n0 n1 : Bytes)
    (proof : List Bytes) (index : Nat) : Bytes :=
  spec_merkle_fold sha index (truncate_to_h128 (sha (n0 ++ n1))) proof 0

theorem lookupA_removeA {β : Type} (m : List (Nat × β)) (k j : Nat) :
    lookupA (removeA m k) j = if j = k then none else lookupA m j := by
  induction m with
  | nil => simp [removeA, lookupA]
  | cons p rest ih =>
    obtain ⟨a, b⟩ := p
    by_cases hak : a = k
    · subst hak
      by_cases hjk : j = a <;>
        simp_all [removeA, lookupA, List.filter_cons]
    · have hne : (a != k) = true := by simpa using hak
      by_cases hja : j = a
      · subst hja
        simp_all [removeA, lookupA, List.filter_cons]
      · by_cases hjk : j = k <;>
          simp_all [removeA, lookupA, List.filter_cons]

theorem lookupA_insertA {β : Type} (m : List (Nat × β)) (k j : Nat) (v : β) :
    lookupA (insertA m k v) j = if j = k then some v else lookupA m j := by
  by_cases hjk : j = k <;> simp [insertA, lookupA, hjk, lookupA_removeA]

theorem lookupA_insertA_self {β : Type} (m : List (Nat × β)) (k : Nat) (v : β) :
    lookupA (insertA m k v) k = some v := by
  simp [lookupA_insertA]

theorem lookupA_insertA_ne {β : Type} (m : List (Nat × β)) (k j : Nat) (v : β)
    (h : j ≠ k) : lookupA (insertA m k v) j = lookupA m j := by
  simp [lookupA_insertA, h]

theorem checkedAdd_ok {a b c : Nat} (h : checkedAdd a b = .ok c) : c = a + b := by
  unfold checkedAdd at h
  split at h
  · exact (Except.ok.injEq _ _ ▸ h).symm ▸ rfl
  · exact absurd h (by simp)

theorem checkedAdd_error {a b : Nat} {e : BridgeErr}
    (h : checkedAdd a b = .error e) : e = .u256Overflow := by
  unfold checkedAdd at h
  split at h
  · exact absurd h (by simp)
  · simpa using h.symm

theorem checkedMul_error {a b : Nat} {e : BridgeErr}
    (h : checkedMul a b = .error e) : e = .u256Overflow := by
  unfold checkedMul at h
  split at h
  · exact absurd h (by simp)
  · simpa using h.symm

theorem checkedSub_error {a b : Nat} {e : BridgeErr}
    (h : checkedSub a b = .error e) : e = .u64Underflow := by
  unfold checkedSub at h
  split at h
  · exact absurd h (by simp)
  · simpa using h.symm

theorem checkedSub_ok {a b c : Nat} (h : checkedSub a b = .ok c) :
    b ≤ a ∧ c = a - b := by
  unfold checkedSub at h
  split at h
  · simp_all
  · exact absurd h (by simp)

theorem gcNumber_best (s : EthBridge) (n : Nat) :
    (gcNumber s n).best_header_hash = s.best_header_hash := by
  unfold gcNumber; split <;> rfl

theorem gcNumber_canonical (s : EthBridge) (n : Nat) :
    (gcNumber s n).canonical_header_hashes = s.canonical_header_hashes := by
  unfold gcNumber; split <;> rfl

theorem foldl_gcNumber_best (l : List Nat) :
    ∀ s : EthBridge, (l.foldl gcNumber s).best_header_hash = s.best_header_hash := by
  induction l with
  | nil => intro s; rfl
  | cons n rest ih =>
    intro s
    rw [List.foldl_cons, ih, gcNumber_best]

theorem foldl_gcNumber_canonical (l : List Nat) :
    ∀ s : EthBridge,
      (l.foldl gcNumber s).canonical_header_hashes = s.canonical_header_hashes := by
  induction l with
  | nil => intro s; rfl
  | cons n rest ih =>
    intro s
    rw [List.foldl_cons, ih, gcNumber_canonical]

theorem maybe_gc_best (s : EthBridge) (a b : Nat) :
    (maybe_gc s a b).best_header_hash = s.best_header_hash := by
  unfold maybe_gc
  split
  · exact foldl_gcNumber_best _ s
  · rfl

theorem maybe_gc_canonical (s : EthBridge) (a b : Nat) :
    (maybe_gc s a b).canonical_header_hashes = s.canonical_header_hashes := by
  unfold maybe_gc
  split
  · exact foldl_gcNumber_canonical _ s
  · rfl

/-- The walk-back loop never writes at a height above its starting
height. -/
theorem walkBack_lookup_gt (infos : List (Nat × HeaderInfo)) (k : Nat) :
    ∀ (n cur : Nat) (canon : List (Nat × Nat)), n < k →
      lookupA (walkBack infos n cur canon) k = lookupA canon k := by
  intro n
  induction n with
  | zero =>
    intro cur canon hk
    unfold walkBack
    exact lookupA_insertA_ne _ _ _ _ (by omega)
  | succ m ih =>
    intro cur canon hk
    unfold walkBack
    cases hinfo : lookupA infos cur with
    | none =>
      simp only [hinfo, ite_self]
      exact lookupA_insertA_ne _ _ _ _ (by omega)
    | some info =>
      simp only [hinfo]
      by_cases hc : lookupA canon (m + 1) = some cur
      · rw [if_pos hc]
        exact lookupA_insertA_ne _ _ _ _ (by omega)
      · rw [if_neg hc, ih _ _ (by omega), lookupA_insertA_ne _ _ _ _ (by omega)]

/-- If the canonical index already maps the starting height to the
starting hash, the walk-back stops after one (idempotent) write. -/
theorem walkBack_converged (infos : List (Nat × HeaderInfo)) (n cur : Nat)
    (canon : List (Nat × Nat)) (h : lookupA canon n = some cur) :
    walkBack infos n cur canon = insertA canon n cur := by
  cases n with
  | zero => rfl
  | succ m =>
    unfold walkBack
    cases hinfo : lookupA infos cur <;> simp [hinfo, h]

theorem removeNumbers_lookup (ns : List Nat) :
    ∀ (canon : List (Nat × Nat)) (k : Nat), k ∉ ns →
      lookupA (removeNumbers canon ns) k = lookupA canon k := by
  induction ns with
  | nil => intro canon k _; rfl
  | cons n rest ih =>
    intro canon k hk
    unfold removeNumbers
    rw [ih _ _ (fun h => hk (by simp [h])), lookupA_removeA]
    rw [if_neg (fun h => hk (by simp [h]))]

theorem add_recent_best (s : EthBridge) (n h : Nat) :
    (add_recent_header_hash s n h).best_header_hash = s.best_header_hash := rfl

theorem add_recent_canonical (s : EthBridge) (n h : Nat) :
    (add_recent_header_hash s n h).canonical_header_hashes =
      s.canonical_header_hashes := rfl

theorem add_recent_infos (s : EthBridge) (n h : Nat) :
    (add_recent_header_hash s n h).infos = s.infos := rfl

/-! ### Claim C4 — the difficulty conjuncts -/
/-- Claim C4 counterexample: the two difficulty conjuncts are not
tautologies.  At difficulty `0` they evaluate to `false`; at `2^255` the
`U256` multiplication overflows and aborts; and a concrete
`verify_header` call is rejected solely because of them (the same header
with difficulty `100` passes). -/
theorem C4_counterexample :
    difficultyConjuncts 0 = .ok false ∧
    difficultyConjuncts (2 ^ 255) = .error .u256Overflow ∧
    verify_header trivialEthash c7State
      { mkHeader 2 with difficulty := 0 } (mkHeader 1) [] = .ok false ∧
    verify_header trivialEthash c7State (mkHeader 2) (mkHeader 1) [] = .ok true :=
  ⟨rfl, rfl, rfl, rfl⟩

/-- Claim C4 (amended): for a 256-bit difficulty value `d`, the two
verifier conjuncts `d < d·101/100` and `d > d·99/100` (in `U256` integer
arithmetic) both evaluate to true iff `100 ≤ d` and `d·101` does not
overflow; for `d < 100` they evaluate to false (rejecting the header) and
for `d·101 ≥ 2^256` the multiplication panics. -/
theorem C4_difficulty_window (d : Nat) :
    difficultyConjuncts d = .ok true ↔ 100 ≤ d ∧ d * 101 < U256LIMIT := by
  have hdiv : d * 101 / 100 = d / 100 + d := by
    have h : d * 101 = d + d * 100 := by ring
    rw [h, Nat.add_mul_div_right _ _ (by norm_num)]
  unfold difficultyConjuncts checkedMul
  by_cases h1 : d * 101 < U256LIMIT
  · rw [if_pos h1]
    by_cases h2 : d < d * 101 / 100
    · have h100 : 100 ≤ d := by
        by_contra hlt
        push_neg at hlt
        have hz : d / 100 = 0 := Nat.div_eq_of_lt (by omega)
        rw [hdiv, hz] at h2
        omega
      have h3 : d * 99 < U256LIMIT :=
        lt_of_le_of_lt (Nat.mul_le_mul_left d (by norm_num)) h1
      have h4 : d * 99 / 100 < d := by
        rw [Nat.div_lt_iff_lt_mul (by norm_num)]
        omega
      simp only [if_pos h2, if_pos h3, if_pos h4]
      simp [h100, h1]
    · have h100 : ¬ 100 ≤ d := by
        intro hge
        apply h2
        rw [hdiv]
        have : 1 ≤ d / 100 := (Nat.one_le_div_iff (by norm_num)).mpr hge
        omega
      simp only [if_neg h2]
      simp [h100]
  · rw [if_neg h1]
    simp [h1]

/-! ### Claim C5 — totality of the Merkle fold -/
/-- Claim C5 counterexample: `apply_merkle_proof` is not total for every
witness value: with an empty `dag_nodes` list the Rust indexing
`dag_nodes[0]` panics, and with 65 proof siblings the `u64` shift
`index >> i` overflows at `i = 64` and panics (the model returns `none`
in both cases). -/
theorem C5_counterexample :
    apply_merkle_proof zeroSha ⟨[], []⟩ 0 = none ∧
    apply_merkle_proof zeroSha
      ⟨[List.replicate 64 0, List.replicate 64 0],
        List.replicate 65 (List.replicate 16 0)⟩ 0 = none :=
  ⟨rfl, by decide⟩

/-- For proof lists whose bit positions stay below 64 no `u64` shift
overflows: the fold is total. -/
theorem merkleFold_isSome (sha : Bytes → Bytes) (index : Nat) :
    ∀ (ps : List Bytes) (leaf : Bytes) (i : Nat), i + ps.length ≤ 64 →
      (merkleFold sha index leaf ps i).isSome = true := by
  intro ps
  induction ps with
  | nil =>
    intro leaf i _
    rfl
  | cons p rest ih =>
    intro leaf i hlen
    simp only [List.length_cons] at hlen
    unfold merkleFold
    rw [if_pos (by omega)]
    exact ih _ _ (by omega)

/-- Claim C5 (amended): `apply_merkle_proof` is pure and total for every
witness whose `dag_nodes` list holds at least two nodes (the `[H512; 2]`
shape every decoded witness has) and whose proof list holds at most 64
siblings (so no `u64` shift overflows), for every index. -/
theorem C5_total (sha : Bytes → Bytes) (w : DoubleNodeWithMerkleProof)
    (index : Nat) (h : 2 ≤ w.dag_nodes.length)
    (hp : w.proof.length ≤ 64) :
    (apply_merkle_proof sha w index).isSome = true := by
  obtain ⟨ns, pf⟩ := w
  cases ns with
  | nil => simp at h
  | cons n0 t =>
    cases t with
    | nil => simp at h
    | cons n1 rest =>
      have hp2 : pf.length ≤ 64 := hp
      exact merkleFold_isSome sha index pf _ 0 (by omega)

/-- Witness for C5: a two-node witness with an empty proof evaluates to
a result. -/
theorem C5_total_witness :
    2 ≤ (⟨[List.replicate 64 0, List.replicate 64 1], []⟩ :
        DoubleNodeWithMerkleProof).dag_nodes.length ∧
    (⟨[List.replicate 64 0, List.replicate 64 1], []⟩ :
        DoubleNodeWithMerkleProof).proof.length ≤ 64 ∧
    (apply_merkle_proof zeroSha
        ⟨[List.replicate 64 0, List.replicate 64 1], []⟩ 0).isSome = true :=
  ⟨by decide, by decide, C5_total zeroSha _ 0 (by decide) (by decide)⟩

/-! ### Claim C3 — the finality-bound invariant -/
/-- Claim C3 counterexample: the strict bound
`number > best_info.number − FINALITY_DEPTH` fails in a reachable state.
After bootstrapping at height 1 and adding thirty verified children
(`c3Run`), the best number is 31 yet the header at height 1 is still in
`headers`/`infos`, and `1 > 31 − 30` is false. -/
theorem C3_counterexample :
    c3Run.isOk = true ∧
    last_block_number c3Final = 31 ∧
    (lookupA c3Final.headers 1001).isSome = true ∧
    ((lookupA c3Final.infos 1001).getD defaultInfo).number = 1 ∧
    ¬ (1 > 31 - NUMBER_OF_BLOCKS_FINALITY) :=
  ⟨by decide, by decide, by decide, by decide, by decide⟩

/-- Claim C3 (amended): the global strict bound does not hold in every
reachable state (see the counterexample; heights equal to, and — when the
GC guard `last_best ≥ 30` fails — below `best − 30` survive).  What the
code does enforce is the admission guard: a header more than
`NUMBER_OF_BLOCKS_FINALITY` below the best number is silently dropped,
the state returned unchanged, so every header actually stored satisfied
`number + FINALITY_DEPTH ≥ best_info.number` at storage time. -/
theorem C3_store_guard (s : EthBridge) (header : BlockHeader)
    (h : (bestInfo s).number > header.number + NUMBER_OF_BLOCKS_FINALITY) :
    maybe_store_header s header = .ok s := by
  have h' : ((lookupA s.infos s.best_header_hash).getD defaultInfo).number >
      header.number + NUMBER_OF_BLOCKS_FINALITY := h
  simp only [maybe_store_header]
  rw [if_pos h']

/-- Witness for the C3 store guard: a height-1 header is dropped without
any state change when the best number is 100. -/
theorem C3_store_guard_witness :
    (bestInfo c3GuardState).number >
      (mkHeader 1).number + NUMBER_OF_BLOCKS_FINALITY ∧
    maybe_store_header c3GuardState (mkHeader 1) = .ok c3GuardState :=
  ⟨by decide, C3_store_guard _ _ (by decide)⟩

/-! ### Claim C7 — idempotent resubmission -/
/-- Claim C7: in a steady state (`best_header_hash` non-zero), submitting
a header whose hash is already in `infos` succeeds and leaves the whole
state unchanged, for any raw bytes decoding to it and any witness
list. -/
theorem C7_resubmission (P : EthashPrimitives)
    (decode : Bytes → Option BlockHeader) (s : EthBridge) (bytes : Bytes)
    (nodes : List DoubleNodeWithMerkleProof) (header : BlockHeader)
    (hdec : decode bytes = some header)
    (hbest : s.best_header_hash ≠ 0)
    (hknown : (lookupA s.infos header.hash).isSome = true) :
    add_block_header P decode s bytes nodes = .ok s := by
  simp only [add_block_header, hdec]
  rw [if_neg hbest, if_pos hknown]

/-- Witness for C7: resubmitting the bootstrapped header of `c7State` is
a no-op. -/
theorem C7_resubmission_witness :
    chainDecode [1] = some (mkHeader 1) ∧
    c7State.best_header_hash ≠ 0 ∧
    (lookupA c7State.infos (mkHeader 1).hash).isSome = true ∧
    add_block_header trivialEthash chainDecode c7State [1]
      [⟨[], []⟩] = .ok c7State :=
  ⟨rfl, by decide, by decide,
    C7_resubmission _ _ _ _ _ _ rfl (by decide) (by decide)⟩

theorem maybe_store_header_drop (s : EthBridge) (header : BlockHeader)
    (hdrop : ((lookupA s.infos s.best_header_hash).getD defaultInfo).number >
      header.number + NUMBER_OF_BLOCKS_FINALITY) :
    maybe_store_header s header = .ok s := by
  simp only [maybe_store_header]
  rw [if_pos hdrop]

theorem maybe_store_header_overflow (s : EthBridge) (header : BlockHeader)
    (hdrop : ¬ ((lookupA s.infos s.best_header_hash).getD defaultInfo).number >
      header.number + NUMBER_OF_BLOCKS_FINALITY)
    (hov : ¬ (((lookupA s.infos header.parent_hash).getD defaultInfo).total_difficulty +
      header.difficulty < U256LIMIT)) :
    panicKind (maybe_store_header s header) = some .u256Overflow := by
  have hadd : checkedAdd
      ((lookupA s.infos header.parent_hash).getD defaultInfo).total_difficulty
      header.difficulty = .error .u256Overflow := by
    unfold checkedAdd
    rw [if_neg hov]
  simp only [maybe_store_header, hadd]
  rw [if_neg hdrop]
  rfl

theorem maybe_store_header_lose (s : EthBridge) (header : BlockHeader)
    (hdrop : ¬ ((lookupA s.infos s.best_header_hash).getD defaultInfo).number >
      header.number + NUMBER_OF_BLOCKS_FINALITY)
    (htd : ((lookupA s.infos header.parent_hash).getD defaultInfo).total_difficulty +
      header.difficulty < U256LIMIT)
    (hlose : ¬ (((lookupA s.infos header.parent_hash).getD defaultInfo).total_difficulty +
        header.difficulty >
        ((lookupA s.infos s.best_header_hash).getD defaultInfo).total_difficulty ∨
      (((lookupA s.infos header.parent_hash).getD defaultInfo).total_difficulty +
          header.difficulty =
          ((lookupA s.infos s.best_header_hash).getD defaultInfo).total_difficulty ∧
        header.difficulty % 2 = 0))) :
    maybe_store_header s header = .ok (storedState s header) := by
  have hadd : checkedAdd
      ((lookupA s.infos header.parent_hash).getD defaultInfo).total_difficulty
      header.difficulty = .ok
      (((lookupA s.infos header.parent_hash).getD defaultInfo).total_difficulty +
        header.difficulty) := by
    unfold checkedAdd
    rw [if_pos htd]
  simp only [maybe_store_header, hadd]
  rw [if_neg hdrop, if_neg hlose]
  rfl

theorem maybe_store_header_win_zero (s : EthBridge) (header : BlockHeader)
    (hdrop : ¬ ((lookupA s.infos s.best_header_hash).getD defaultInfo).number >
      header.number + NUMBER_OF_BLOCKS_FINALITY)
    (htd : ((lookupA s.infos header.parent_hash).getD defaultInfo).total_difficulty +
      header.difficulty < U256LIMIT)
    (hwin : ((lookupA s.infos header.parent_hash).getD defaultInfo).total_difficulty +
        header.difficulty >
        ((lookupA s.infos s.best_header_hash).getD defaultInfo).total_difficulty ∨
      (((lookupA s.infos header.parent_hash).getD defaultInfo).total_difficulty +
          header.difficulty =
          ((lookupA s.infos s.best_header_hash).getD defaultInfo).total_difficulty ∧
        header.difficulty % 2 = 0))
    (h0 : header.number = 0) :
    panicKind (maybe_store_header s header) = some .u64Underflow := by
  have hadd : checkedAdd
      ((lookupA s.infos header.parent_hash).getD defaultInfo).total_difficulty
      header.difficulty = .ok
      (((lookupA s.infos header.parent_hash).getD defaultInfo).total_difficulty +
        header.difficulty) := by
    unfold checkedAdd
    rw [if_pos htd]
  simp only [maybe_store_header, hadd]
  rw [if_neg hdrop, if_pos hwin, h0]
  rfl

theorem maybe_store_header_win_isOk (s : EthBridge) (header : BlockHeader)
    (hdrop : ¬ ((lookupA s.infos s.best_header_hash).getD defaultInfo).number >
      header.number + NUMBER_OF_BLOCKS_FINALITY)
    (htd : ((lookupA s.infos header.parent_hash).getD defaultInfo).total_difficulty +
      header.difficulty < U256LIMIT)
    (hwin : ((lookupA s.infos header.parent_hash).getD defaultInfo).total_difficulty +
        header.difficulty >
        ((lookupA s.infos s.best_header_hash).getD defaultInfo).total_difficulty ∨
      (((lookupA s.infos header.parent_hash).getD defaultInfo).total_difficulty +
          header.difficulty =
          ((lookupA s.infos s.best_header_hash).getD defaultInfo).total_difficulty ∧
        header.difficulty % 2 = 0))
    (h1 : 1 ≤ header.number) :
    panicKind (maybe_store_header s header) = none := by
  have hadd : checkedAdd
      ((lookupA s.infos header.parent_hash).getD defaultInfo).total_difficulty
      header.difficulty = .ok
      (((lookupA s.infos header.parent_hash).getD defaultInfo).total_difficulty +
        header.difficulty) := by
    unfold checkedAdd
    rw [if_pos htd]
  have hsub : checkedSub header.number 1 = .ok (header.number - 1) := by
    unfold checkedSub
    rw [if_pos h1]
  simp only [maybe_store_header, hadd, hsub]
  rw [if_neg hdrop, if_pos hwin]
  rfl

theorem maybe_store_header_win_nofwd (s : EthBridge) (header : BlockHeader)
    (hdrop : ¬ ((lookupA s.infos s.best_header_hash).getD defaultInfo).number >
      header.number + NUMBER_OF_BLOCKS_FINALITY)
    (htd : ((lookupA s.infos header.parent_hash).getD defaultInfo).total_difficulty +
      header.difficulty < U256LIMIT)
    (hwin : ((lookupA s.infos header.parent_hash).getD defaultInfo).total_difficulty +
        header.difficulty >
        ((lookupA s.infos s.best_header_hash).getD defaultInfo).total_difficulty ∨
      (((lookupA s.infos header.parent_hash).getD defaultInfo).total_difficulty +
          header.difficulty =
          ((lookupA s.infos s.best_header_hash).getD defaultInfo).total_difficulty ∧
        header.difficulty % 2 = 0))
    (h1 : 1 ≤ header.number)
    (hfwd : ¬ ((lookupA s.infos s.best_header_hash).getD defaultInfo).number >
      header.number) :
    maybe_store_header s header = .ok (maybe_gc
      (winState s header s.canonical_header_hashes)
      ((lookupA s.infos s.best_header_hash).getD defaultInfo).number
      header.number) := by
  have hadd : checkedAdd
      ((lookupA s.infos header.parent_hash).getD defaultInfo).total_difficulty
      header.difficulty = .ok
      (((lookupA s.infos header.parent_hash).getD defaultInfo).total_difficulty +
        header.difficulty) := by
    unfold checkedAdd
    rw [if_pos htd]
  have hsub : checkedSub header.number 1 = .ok (header.number - 1) := by
    unfold checkedSub
    rw [if_pos h1]
  simp only [maybe_store_header, hadd, hsub]
  rw [if_neg hdrop, if_pos hwin, if_neg hfwd]
  rfl

theorem maybe_store_header_win_fwd (s : EthBridge) (header : BlockHeader)
    (hdrop : ¬ ((lookupA s.infos s.best_header_hash).getD defaultInfo).number >
      header.number + NUMBER_OF_BLOCKS_FINALITY)
    (htd : ((lookupA s.infos header.parent_hash).getD defaultInfo).total_difficulty +
      header.difficulty < U256LIMIT)
    (hwin : ((lookupA s.infos header.parent_hash).getD defaultInfo).total_difficulty +
        header.difficulty >
        ((lookupA s.infos s.best_header_hash).getD defaultInfo).total_difficulty ∨
      (((lookupA s.infos header.parent_hash).getD defaultInfo).total_difficulty +
          header.difficulty =
          ((lookupA s.infos s.best_header_hash).getD defaultInfo).total_difficulty ∧
        header.difficulty % 2 = 0))
    (h1 : 1 ≤ header.number)
    (hfwd : ((lookupA s.infos s.best_header_hash).getD defaultInfo).number >
      header.number) :
    maybe_store_header s header = .ok (maybe_gc
      (winState s header
        (removeNumbers s.canonical_header_hashes
          (List.range' (header.number + 1)
            (((lookupA s.infos s.best_header_hash).getD defaultInfo).number -
              header.number))))
      ((lookupA s.infos s.best_header_hash).getD defaultInfo).number
      header.number) := by
  have hadd : checkedAdd
      ((lookupA s.infos header.parent_hash).getD defaultInfo).total_difficulty
      header.difficulty = .ok
      (((lookupA s.infos header.parent_hash).getD defaultInfo).total_difficulty +
        header.difficulty) := by
    unfold checkedAdd
    rw [if_pos htd]
  have hsub : checkedSub header.number 1 = .ok (header.number - 1) := by
    unfold checkedSub
    rw [if_pos h1]
  simp only [maybe_store_header, hadd, hsub]
  rw [if_neg hdrop, if_pos hwin, if_pos hfwd]
  rfl

/-! ### Claim C10 — the height-zero reorg underflow -/
/-- Claim C10: when a header that is not dropped as too old wins the
canonical decision (which the first, bootstrap header always does when
`infos` has no entry for the zero best hash), the reorg walk-back
computes `header.number - 1` on a `u64`; at height 0 this underflows and
the call aborts, so the store path is not total at height 0 and every
header that is cleanly stored as a winning canonical tip has
`number ≥ 1`. -/
theorem C10_height_zero (s : EthBridge) (header : BlockHeader)
    (hrecent : ¬ ((bestInfo s).number > header.number + NUMBER_OF_BLOCKS_FINALITY))
    (htd : newTotalDifficulty s header < U256LIMIT)
    (hwin : newTotalDifficulty s header > (bestInfo s).total_difficulty ∨
      (newTotalDifficulty s header = (bestInfo s).total_difficulty ∧
        header.difficulty % 2 = 0)) :
    (header.number = 0 →
      panicKind (maybe_store_header s header) = some .u64Underflow) ∧
    (∀ s' : EthBridge, maybe_store_header s header = .ok s' → 1 ≤ header.number) := by
  constructor
  · intro h0
    exact maybe_store_header_win_zero s header hrecent htd hwin h0
  · intro s' hok
    by_contra hlt
    have h0 : header.number = 0 := by omega
    have hz := maybe_store_header_win_zero s header hrecent htd hwin h0
    rw [hok] at hz
    simp [panicKind] at hz

/-- Witness for C10: storing the height-0 header `mkHeader 0` (which wins
the canonical decision in the freshly initialized state) aborts with the
`u64` underflow. -/
theorem C10_height_zero_witness :
    (mkHeader 0).number = 0 ∧
    panicKind (maybe_store_header (EthBridge.init 0 []) (mkHeader 0)) =
      some .u64Underflow :=
  ⟨rfl, (C10_height_zero (EthBridge.init 0 []) (mkHeader 0) (by decide)
    (by decide) (Or.inl (by decide))).1 rfl⟩

/-! ### Claim C1 — atomicity on failure -/
/-- The only panics `maybe_store_header` itself can raise are the `U256`
overflow of the total-difficulty addition and the `u64` underflow of the
walk-back start. -/
theorem maybe_store_header_panic_kinds (s : EthBridge) (header : BlockHeader)
    (e : BridgeErr) (s' : EthBridge)
    (h : maybe_store_header s header = .error (e, s')) :
    e = .u256Overflow ∨ e = .u64Underflow := by
  have hp : panicKind (maybe_store_header s header) = some e := by
    rw [h]
    rfl
  by_cases hdrop : ((lookupA s.infos s.best_header_hash).getD defaultInfo).number >
      header.number + NUMBER_OF_BLOCKS_FINALITY
  · rw [maybe_store_header_drop s header hdrop] at h
    exact absurd h (by simp)
  · by_cases htd : ((lookupA s.infos header.parent_hash).getD defaultInfo).total_difficulty +
        header.difficulty < U256LIMIT
    · by_cases hwin : ((lookupA s.infos header.parent_hash).getD defaultInfo).total_difficulty +
          header.difficulty >
          ((lookupA s.infos s.best_header_hash).getD defaultInfo).total_difficulty ∨
        (((lookupA s.infos header.parent_hash).getD defaultInfo).total_difficulty +
            header.difficulty =
            ((lookupA s.infos s.best_header_hash).getD defaultInfo).total_difficulty ∧
          header.difficulty % 2 = 0)
      · by_cases h1 : 1 ≤ header.number
        · have hok := maybe_store_header_win_isOk s header hdrop htd hwin h1
          rw [hp] at hok
          exact absurd hok (by simp)
        · have h0 : header.number = 0 := by omega
          have hz := maybe_store_header_win_zero s header hdrop htd hwin h0
          rw [hp] at hz
          exact Or.inr (by simpa using hz)
      · rw [maybe_store_header_lose s header hdrop htd hwin] at h
        exact absurd h (by simp)
    · have ho := maybe_store_header_overflow s header hdrop htd
      rw [hp] at ho
      exact Or.inl (by simpa using ho)

/-- Claim C1: if `add_block_header` fails with a decode error, an unknown
parent, a Merkle-root mismatch during the witnessed DAG lookup, or an
invalid header (PoW threshold not met or any consensus conjunct false),
the state carried at the panic is exactly the entry state: no failing
path of these kinds has performed any write, so the bridge state after
the aborted operation equals the state before it. -/
theorem C1_atomicity (P : EthashPrimitives) (decode : Bytes → Option BlockHeader)
    (s : EthBridge) (bytes : Bytes) (nodes : List DoubleNodeWithMerkleProof)
    (e : BridgeErr) (s' : EthBridge)
    (h : add_block_header P decode s bytes nodes = .error (e, s'))
    (he : e = .decodeError ∨ e = .unknownParent ∨ e = .merkleRootMismatch ∨
      e = .invalidHeader) :
    s' = s := by
  unfold add_block_header at h
  cases hdec : decode bytes with
  | none =>
    simp only [hdec, Except.error.injEq, Prod.mk.injEq] at h
    exact h.2.symm
  | some header =>
    simp only [hdec] at h
    by_cases hbest : s.best_header_hash = 0
    · rw [if_pos hbest] at h
      rcases maybe_store_header_panic_kinds _ _ _ _ h with h1 | h1 <;>
        (subst h1; rcases he with h2 | h2 | h2 | h2 <;> simp at h2)
    · rw [if_neg hbest] at h
      by_cases hknown : (lookupA s.infos header.hash).isSome = true
      · rw [if_pos hknown] at h
        exact absurd h (by simp)
      · rw [if_neg hknown] at h
        cases hpar : lookupA s.headers header.parent_hash with
        | none =>
          simp only [hpar, Except.error.injEq, Prod.mk.injEq] at h
          exact h.2.symm
        | some prev =>
          simp only [hpar] at h
          cases hv : verify_header P s header prev nodes with
          | error e1 =>
            simp only [hv, Except.error.injEq, Prod.mk.injEq] at h
            exact h.2.symm
          | ok b =>
            cases b with
            | false =>
              simp only [hv, Except.error.injEq, Prod.mk.injEq] at h
              exact h.2.symm
            | true =>
              simp only [hv] at h
              rcases maybe_store_header_panic_kinds _ _ _ _ h with h1 | h1 <;>
                (subst h1; rcases he with h2 | h2 | h2 | h2 <;> simp at h2)

/-- Witness for C1: submitting a header with an unknown parent on the
bootstrapped state fails and carries the state unchanged. -/
theorem C1_atomicity_witness :
    add_block_header trivialEthash chainDecode c7State [5] [] =
      .error (.unknownParent, c7State) ∧
    c7State = c7State :=
  ⟨rfl, C1_atomicity trivialEthash chainDecode c7State [5] []
    .unknownParent c7State rfl (Or.inr (Or.inl rfl))⟩

/-! ### Claim C2 — the canonical decision rule -/
theorem winState_tip_fields (s : EthBridge) (header : BlockHeader)
    (base : List (Nat × Nat)) (h1 : 1 ≤ header.number) :
    (winState s header base).best_header_hash = header.hash ∧
    lookupA (winState s header base).canonical_header_hashes header.number =
      some header.hash := by
  constructor
  · rfl
  · show lookupA (walkBack (storedState s header).infos (header.number - 1)
      header.parent_hash (insertA base header.number header.hash))
      header.number = some header.hash
    rw [walkBack_lookup_gt _ _ _ _ _ (by omega), lookupA_insertA_self]

/-- Claim C2: a header that `maybe_store_header` actually stores (it is
not dropped as too old, and the call returns) becomes the canonical tip —
`best_header_hash` set to its hash and `canonical_header_hashes` at its
height set to its hash — iff its computed total difficulty
`infos[parent].total_difficulty + difficulty` (missing parent treated as
zero) strictly exceeds `best_info.total_difficulty`, or equals it with an
even header difficulty. -/
theorem C2_canonical_decision (s : EthBridge) (header : BlockHeader)
    (s' : EthBridge)
    (hok : maybe_store_header s header = .ok s')
    (hstored : ¬ ((bestInfo s).number > header.number + NUMBER_OF_BLOCKS_FINALITY))
    (hne : s.best_header_hash ≠ header.hash) :
    (s'.best_header_hash = header.hash ∧
      lookupA s'.canonical_header_hashes header.number = some header.hash) ↔
    (newTotalDifficulty s header > (bestInfo s).total_difficulty ∨
      (newTotalDifficulty s header = (bestInfo s).total_difficulty ∧
        header.difficulty % 2 = 0)) := by
  have hstored' : ¬ ((lookupA s.infos s.best_header_hash).getD defaultInfo).number >
      header.number + NUMBER_OF_BLOCKS_FINALITY := hstored
  by_cases htd : ((lookupA s.infos header.parent_hash).getD defaultInfo).total_difficulty +
      header.difficulty < U256LIMIT
  · by_cases hwin : ((lookupA s.infos header.parent_hash).getD defaultInfo).total_difficulty +
        header.difficulty >
        ((lookupA s.infos s.best_header_hash).getD defaultInfo).total_difficulty ∨
      (((lookupA s.infos header.parent_hash).getD defaultInfo).total_difficulty +
          header.difficulty =
          ((lookupA s.infos s.best_header_hash).getD defaultInfo).total_difficulty ∧
        header.difficulty % 2 = 0)
    · by_cases h1 : 1 ≤ header.number
      · by_cases hfwd : ((lookupA s.infos s.best_header_hash).getD defaultInfo).number >
            header.number
        · have hev := maybe_store_header_win_fwd s header hstored' htd hwin h1 hfwd
          rw [hok] at hev
          injection hev with hs'
          refine iff_of_true ⟨?_, ?_⟩ hwin
          · rw [hs', maybe_gc_best]
            exact (winState_tip_fields s header _ h1).1
          · rw [hs', maybe_gc_canonical]
            exact (winState_tip_fields s header _ h1).2
        · have hev := maybe_store_header_win_nofwd s header hstored' htd hwin h1 hfwd
          rw [hok] at hev
          injection hev with hs'
          refine iff_of_true ⟨?_, ?_⟩ hwin
          · rw [hs', maybe_gc_best]
            exact (winState_tip_fields s header _ h1).1
          · rw [hs', maybe_gc_canonical]
            exact (winState_tip_fields s header _ h1).2
      · have h0 : header.number = 0 := by omega
        have hz := maybe_store_header_win_zero s header hstored' htd hwin h0
        rw [hok] at hz
        simp [panicKind] at hz
    · have hl := maybe_store_header_lose s header hstored' htd hwin
      rw [hok] at hl
      injection hl with hs'
      refine iff_of_false (fun hcontra => ?_) hwin
      rw [hs'] at hcontra
      exact hne hcontra.1
  · have ho := maybe_store_header_overflow s header hstored' htd
    rw [hok] at ho
    simp [panicKind] at ho

/-- Witness for C2: storing the bootstrap header `mkHeader 1` in the
fresh state makes it the canonical tip, as its total difficulty 100
exceeds the default best total difficulty 0. -/
theorem C2_canonical_decision_witness :
    ((maybe_store_header (EthBridge.init 0 []) (mkHeader 1)).toOption.getD
        (EthBridge.init 0 [])).best_header_hash = (mkHeader 1).hash ∧
    lookupA ((maybe_store_header (EthBridge.init 0 []) (mkHeader 1)).toOption.getD
        (EthBridge.init 0 [])).canonical_header_hashes (mkHeader 1).number =
      some (mkHeader 1).hash :=
  (C2_canonical_decision (EthBridge.init 0 []) (mkHeader 1) _ (by rfl)
    (by decide) (by decide)).mpr (Or.inl (by decide))

/-! ### Claim C8 — frame on linear extension -/
/-- Claim C8: when a valid header whose `parent_hash` equals the current
`best_header_hash` (a direct child of the canonical tip, which is
canonical at its own height) is accepted by `add_block_header`, the
canonical index maps the new height to the new header's hash and is
unchanged at every lower height; in particular `block_hash` at the
previous tip's height returns the same value as before the call. -/
theorem C8_linear_extension (P : EthashPrimitives)
    (decode : Bytes → Option BlockHeader) (s : EthBridge) (bytes : Bytes)
    (nodes : List DoubleNodeWithMerkleProof) (header : BlockHeader)
    (s' : EthBridge)
    (hdec : decode bytes = some header)
    (hbest : s.best_header_hash ≠ 0)
    (hknown : lookupA s.infos header.hash = none)
    (hpar : header.parent_hash = s.best_header_hash)
    (hnum : header.number = (bestInfo s).number + 1)
    (hcanon : lookupA s.canonical_header_hashes (bestInfo s).number =
      some s.best_header_hash)
    (hok : add_block_header P decode s bytes nodes = .ok s') :
    block_hash s' header.number = some header.hash ∧
    ∀ n, n < header.number → block_hash s' n = block_hash s n := by
  have hnum' : header.number =
      ((lookupA s.infos s.best_header_hash).getD defaultInfo).number + 1 := hnum
  have hcanon' : lookupA s.canonical_header_hashes
      ((lookupA s.infos s.best_header_hash).getD defaultInfo).number =
      some s.best_header_hash := hcanon
  -- Reduce `add_block_header` to `maybe_store_header`.
  simp only [add_block_header, hdec] at hok
  rw [if_neg hbest] at hok
  rw [if_neg (show ¬ ((lookupA s.infos header.hash).isSome = true) by
    simp [hknown])] at hok
  cases hpar2 : lookupA s.headers header.parent_hash with
  | none =>
    simp only [hpar2] at hok
    exact absurd hok (by simp)
  | some prev =>
    simp only [hpar2] at hok
    cases hv : verify_header P s header prev nodes with
    | error e1 =>
      simp only [hv] at hok
      exact absurd hok (by simp)
    | ok b =>
      cases b with
      | false =>
        simp only [hv] at hok
        exact absurd hok (by simp)
      | true =>
        simp only [hv] at hok
        -- The direct child is never dropped and always wins.
        have hstored' : ¬ ((lookupA s.infos s.best_header_hash).getD
            defaultInfo).number > header.number + NUMBER_OF_BLOCKS_FINALITY := by
          omega
        have hwin : ((lookupA s.infos header.parent_hash).getD
              defaultInfo).total_difficulty + header.difficulty >
              ((lookupA s.infos s.best_header_hash).getD
                defaultInfo).total_difficulty ∨
            (((lookupA s.infos header.parent_hash).getD
                defaultInfo).total_difficulty + header.difficulty =
              ((lookupA s.infos s.best_header_hash).getD
                defaultInfo).total_difficulty ∧
              header.difficulty % 2 = 0) := by
          rw [hpar]
          rcases Nat.eq_zero_or_pos header.difficulty with hd | hd
          · right
            rw [hd]
            exact ⟨by omega, rfl⟩
          · left
            omega
        have h1 : 1 ≤ header.number := by omega
        have hfwd : ¬ ((lookupA s.infos s.best_header_hash).getD
            defaultInfo).number > header.number := by omega
        by_cases htd : ((lookupA s.infos header.parent_hash).getD
            defaultInfo).total_difficulty + header.difficulty < U256LIMIT
        · have hev := maybe_store_header_win_nofwd s header hstored' htd hwin h1 hfwd
          rw [hok] at hev
          injection hev with hs'
          -- The walk-back converges after one idempotent write.
          have hconv : lookupA (insertA s.canonical_header_hashes
              header.number header.hash) (header.number - 1) =
              some header.parent_hash := by
            rw [lookupA_insertA_ne _ _ _ _ (by omega), hpar,
              show header.number - 1 =
                ((lookupA s.infos s.best_header_hash).getD defaultInfo).number
                by omega]
            exact hcanon'
          have hcan : s'.canonical_header_hashes =
              insertA (insertA s.canonical_header_hashes header.number
                header.hash) (header.number - 1) header.parent_hash := by
            rw [hs', maybe_gc_canonical]
            show walkBack (storedState s header).infos (header.number - 1)
              header.parent_hash (insertA s.canonical_header_hashes
                header.number header.hash) = _
            rw [walkBack_converged _ _ _ _ hconv]
          constructor
          · show lookupA s'.canonical_header_hashes header.number = some header.hash
            rw [hcan, lookupA_insertA_ne _ _ _ _ (by omega), lookupA_insertA_self]
          · intro n hn
            show lookupA s'.canonical_header_hashes n =
              lookupA s.canonical_header_hashes n
            rw [hcan]
            by_cases hn1 : n = header.number - 1
            · rw [hn1, lookupA_insertA_self, hpar,
                show header.number - 1 =
                  ((lookupA s.infos s.best_header_hash).getD defaultInfo).number
                  by omega]
              exact hcanon'.symm
            · rw [lookupA_insertA_ne _ _ _ _ hn1,
                lookupA_insertA_ne _ _ _ _ (by omega)]
        · have ho := maybe_store_header_overflow s header hstored' htd
          rw [hok] at ho
          simp [panicKind] at ho

/-- Witness for C8: extending `c7State` (tip `mkHeader 1`) with its
direct child `mkHeader 2` makes height 2 canonical and leaves height 1
unchanged. -/
theorem C8_linear_extension_witness :
    block_hash ((add_block_header trivialEthash chainDecode c7State [2]
        []).toOption.getD c7State) 2 = some (mkHeader 2).hash ∧
    block_hash ((add_block_header trivialEthash chainDecode c7State [2]
        []).toOption.getD c7State) 1 = block_hash c7State 1 :=
  ⟨(C8_linear_extension trivialEthash chainDecode c7State [2] [] (mkHeader 2)
      _ rfl (by decide) (by decide) (by decide) (by decide) (by decide)
      (by rfl)).1,
    (C8_linear_extension trivialEthash chainDecode c7State [2] [] (mkHeader 2)
      _ rfl (by decide) (by decide) (by decide) (by decide) (by decide)
      (by rfl)).2 1 (by decide)⟩

/-! ### Claim C9 — the witness-count requirement -/
/-- A successful run of the lookup closure over a non-empty offset
sequence starting at counter `idx` implies the witness list covers index
`(idx + length - 1) / 2`. -/
theorem lookupWords_ok_length (P : EthashPrimitives) (root : Bytes)
    (nodes : List DoubleNodeWithMerkleProof) :
    ∀ (offs : List Nat) (idx : Nat) (ws : List Bytes),
      lookupWords P root nodes offs idx = .ok ws →
      offs = [] ∨ idx + offs.length ≤ 2 * nodes.length := by
  intro offs
  induction offs with
  | nil =>
    intro idx ws _
    exact Or.inl rfl
  | cons o rest ih =>
    intro idx ws h
    right
    unfold lookupWords at h
    cases hg : nodes.get? (idx / 2) with
    | none =>
      simp only [hg] at h
      exact absurd h (by simp)
    | some node =>
      simp only [hg] at h
      have hidx : idx / 2 < nodes.length := (List.get?_eq_some.mp hg).1
      cases hchk : pairRootCheck P.sha256 root node idx o with
      | error e =>
        simp only [hchk] at h
        exact absurd h (by simp)
      | ok u =>
        simp only [hchk] at h
        cases hw : node.dag_nodes.get? (idx % 2) with
        | none =>
          simp only [hw] at h
          exact absurd h (by simp)
        | some w =>
          simp only [hw] at h
          cases hrec : lookupWords P root nodes rest (idx + 1) with
          | error e =>
            simp only [hrec] at h
            exact absurd h (by simp)
          | ok ws2 =>
            rcases ih (idx + 1) ws2 hrec with hnil | hle
            · subst hnil
              simp only [List.length_cons, List.length_nil]
              omega
            · simp only [List.length_cons]
              omega

/-- Claim C9 (amended): a successful `hashimoto_merkle` run requires at
least `⌈total_lookup_calls / 2⌉` witnesses (one per pair of 64-byte DAG
lookups): fewer witnesses make `nodes[idx / 2]` panic. -/
theorem C9_witness_requirement (P : EthashPrimitives) (s : EthBridge)
    (header_hash nonce block_number : Nat)
    (nodes : List DoubleNodeWithMerkleProof) (r : Nat × Nat)
    (hok : hashimoto_merkle P s header_hash nonce block_number nodes = .ok r) :
    nodes.length ≥
      ((P.offsets header_hash nonce
        (P.get_full_size (block_number / 30000))).length + 1) / 2 := by
  unfold hashimoto_merkle at hok
  cases hr : dag_merkle_root s (block_number / 30000) with
  | error e =>
    simp only [hr] at hok
    exact absurd hok (by simp)
  | ok root =>
    simp only [hr] at hok
    cases hl : lookupWords P root nodes
        (P.offsets header_hash nonce (P.get_full_size (block_number / 30000)))
        0 with
    | error e =>
      simp only [hl] at hok
      exact absurd hok (by simp)
    | ok ws =>
      rcases lookupWords_ok_length P root nodes _ 0 ws hl with hnil | hle
      · rw [hnil]
        simp
      · omega

/-- Claim C9 counterexample: the claimed equality is too strong.  With
one lookup call, `⌈1 / 2⌉ = 1` witness is required, yet a submission with
two witnesses also succeeds: surplus witnesses are ignored, not
rejected. -/
theorem C9_counterexample :
    hashimoto_merkle c9Ethash (EthBridge.init 0 [List.replicate 16 0]) 0 0 0
      [c9Witness, c9Witness] = .ok (0, 0) ∧
    ¬ ([c9Witness, c9Witness].length =
      ((c9Ethash.offsets 0 0 (c9Ethash.get_full_size 0)).length + 1) / 2) ∧
    (add_block_header c9Ethash chainDecode c7State [2]
      [c9Witness, c9Witness]).isOk = true :=
  ⟨rfl, by decide, by decide⟩

/-- Witness for the amended C9: a successful one-lookup run with exactly
one witness satisfies the lower bound. -/
theorem C9_witness_requirement_witness :
    [c9Witness].length ≥
      ((c9Ethash.offsets 0 0 (c9Ethash.get_full_size 0)).length + 1) / 2 :=
  C9_witness_requirement c9Ethash (EthBridge.init 0 [List.replicate 16 0])
    0 0 0 [c9Witness] (0, 0) rfl

theorem shiftRight_mod_two (index i : Nat) :
    ((index >>> i) % 2 = 0) ↔ index.testBit i = false := by
  rw [Nat.testBit_to_div_mod, Nat.shiftRight_eq_div_pow]
  rcases Nat.mod_two_eq_zero_or_one (index / 2 ^ i) with h | h <;> simp [h]

theorem truncate_to_h128_length (arr : Bytes) (h : arr.length = 32) :
    (truncate_to_h128 arr).length = 16 := by
  simp [truncate_to_h128, h]

/-- The two `copy_from_slice`s into the 128-byte buffer amount to plain
concatenation for 64-byte nodes. -/
theorem setSlice_two_nodes (n0 n1 : Bytes) (h0 : n0.length = 64)
    (h1 : n1.length = 64) :
    setSlice (setSlice (List.replicate 128 0) 0 n0) 64 n1 = n0 ++ n1 := by
  unfold setSlice
  have e1 : (List.replicate 128 (0 : Nat)).take 0 = [] := rfl
  have e2 : (List.replicate 128 (0 : Nat)).drop 64 = List.replicate 64 0 := by
    decide
  rw [e1, h0, e2, List.nil_append]
  have e3 : (n0 ++ List.replicate 64 (0 : Nat)).take 64 = n0 := by
    rw [← h0, List.take_left]
  have e4 : (n0 ++ List.replicate 64 (0 : Nat)).drop (64 + n1.length) = [] := by
    apply List.drop_eq_nil_of_le
    simp [h0, h1]
  rw [e3, e4, List.append_nil]

/-- The two `copy_from_slice`s into the 64-byte pair buffer produce the
zero-padded layout of the spec for 16-byte inputs. -/
theorem setSlice_pair_buffer (l r : Bytes) (hl : l.length = 16)
    (hr : r.length = 16) :
    setSlice (setSlice (List.replicate 64 0) 16 l) 48 r =
      List.replicate 16 0 ++ l ++ (List.replicate 16 0 ++ r) := by
  unfold setSlice
  have e1 : (List.replicate 64 (0 : Nat)).take 16 = List.replicate 16 0 := by
    decide
  have e2 : (List.replicate 64 (0 : Nat)).drop (16 + l.length) =
      List.replicate 32 0 := by
    rw [hl]
    decide
  rw [e1, e2]
  have hlen : (List.replicate 16 (0 : Nat) ++ l ++ List.replicate 32 0).length
      = 64 := by
    simp [hl]
  have e3 : (List.replicate 16 (0 : Nat) ++ l ++ List.replicate 32 0).take 48 =
      List.replicate 16 0 ++ l ++ List.replicate 16 0 := by
    rw [List.take_append_eq_append_take, List.take_append_eq_append_take]
    simp [hl]
  have e4 : (List.replicate 16 (0 : Nat) ++ l ++ List.replicate 32 0).drop
      (48 + r.length) = [] := by
    apply List.drop_eq_nil_of_le
    rw [hlen, hr]
  rw [e3, e4, List.append_nil, List.append_assoc]

/-- For 16-byte inputs, the code's `hash_h128` equals the spec's paired
hash. -/
theorem hash_h128_eq_spec (sha : Bytes → Bytes) (l r : Bytes)
    (hl : l.length = 16) (hr : r.length = 16) :
    hash_h128 sha l r = spec_pair_hash sha l r := by
  unfold hash_h128 spec_pair_hash
  rw [setSlice_pair_buffer l r hl hr]

/-- The code's proof fold equals the spec's fold, for 16-byte leaves and
siblings and a 32-byte hash function. -/
theorem merkleFold_eq_spec (sha : Bytes → Bytes)
    (hsha : ∀ x, (sha x).length = 32) (index : Nat) :
    ∀ (ps : List Bytes) (leaf : Bytes) (i : Nat), leaf.length = 16 →
      (∀ p ∈ ps, p.length = 16) → i + ps.length ≤ 64 →
      merkleFold sha index leaf ps i =
        some (spec_merkle_fold sha index leaf ps i) := by
  intro ps
  induction ps with
  | nil =>
    intro leaf i _ _ _
    rfl
  | cons p rest ih =>
    intro leaf i hleaf hps hlen
    have hp : p.length = 16 := hps p (by simp)
    have hrest : ∀ q ∈ rest, q.length = 16 := fun q hq => hps q (by simp [hq])
    simp only [List.length_cons] at hlen
    unfold merkleFold spec_merkle_fold
    rw [if_pos (show i < 64 by omega)]
    by_cases hbit : (index >>> i) % 2 = 0
    · rw [if_pos hbit, if_pos ((shiftRight_mod_two index i).mp hbit)]
      rw [hash_h128_eq_spec sha leaf p hleaf hp]
      exact ih _ _ (truncate_to_h128_length _ (hsha _)) hrest (by omega)
    · rw [if_neg hbit, if_neg (by
        intro hfalse
        exact hbit ((shiftRight_mod_two index i).mpr hfalse))]
      rw [hash_h128_eq_spec sha p leaf hp hleaf]
      exact ih _ _ (truncate_to_h128_length _ (hsha _)) hrest (by omega)

/-- Claim C6 counterexample: the claim quantifies over every proof list,
but with 65 siblings the `u64` shift `index >> i` overflows at bit
position 64 and the call panics (the model returns `none`), while the
spec's fold is total: the program does not compute the spec fold
there. -/
theorem C6_counterexample :
    apply_merkle_proof zeroSha
      ⟨[List.replicate 64 0, List.replicate 64 0],
        List.replicate 65 (List.replicate 16 0)⟩ 0 = none ∧
    apply_merkle_proof zeroSha
      ⟨[List.replicate 64 0, List.replicate 64 0],
        List.replicate 65 (List.replicate 16 0)⟩ 0 ≠
      some (apply_merkle_proof_spec zeroSha (List.replicate 64 0)
        (List.replicate 64 0) (List.replicate 65 (List.replicate 16 0)) 0) :=
  ⟨by decide, by decide⟩

/-- Claim C6 (amended): for every witness whose `dag_nodes` list holds
two 64-byte nodes and whose proof list holds at most 64 siblings of 16
bytes each (longer proofs panic on the `u64` shift), every index and
every 32-byte-output hash function, `apply_merkle_proof` computes
exactly the fold described by the spec: the starting leaf is the low 16
bytes of SHA-256 over `dag_nodes[0] ++ dag_nodes[1]`, and each step
pair-hashes with the sibling on the side selected by bit `i` of the
index. -/
theorem C6_bit_exact (sha : Bytes → Bytes) (n0 n1 : Bytes)
    (proof : List Bytes) (index : Nat)
    (hsha : ∀ x, (sha x).length = 32)
    (h0 : n0.length = 64) (h1 : n1.length = 64)
    (hp : ∀ p ∈ proof, p.length = 16)
    (hlen : proof.length ≤ 64) :
    apply_merkle_proof sha ⟨[n0, n1], proof⟩ index =
      some (apply_merkle_proof_spec sha n0 n1 proof index) := by
  show merkleFold sha index
    (truncate_to_h128 (sha (setSlice (setSlice (List.replicate 128 0) 0 n0)
      64 n1))) proof 0 = _
  rw [setSlice_two_nodes n0 n1 h0 h1]
  unfold apply_merkle_proof_spec
  rw [merkleFold_eq_spec sha hsha index proof _ 0
    (truncate_to_h128_length _ (hsha _)) hp (by omega)]

/-- Witness for C6: a concrete two-node witness with one proof sibling
under the concrete hash function `zeroSha`. -/
theorem C6_bit_exact_witness :
    apply_merkle_proof zeroSha
      ⟨[List.replicate 64 0, List.replicate 64 1], [List.replicate 16 2]⟩ 1 =
      some (apply_merkle_proof_spec zeroSha (List.replicate 64 0)
        (List.replicate 64 1) [List.replicate 16 2] 1) :=
  C6_bit_exact zeroSha (List.replicate 64 0) (List.replicate 64 1)
    [List.replicate 16 2] 1 (fun _ => by simp [zeroSha]) (by simp) (by simp)
    (by
      intro p hp
      simp only [List.mem_singleton] at hp
      simp [hp])
    (by decide)
